import Mathlib

/-!
Shallow embedding of a small attendance-tracking web application
(`src/app.py`, `src/database.py`): a SQLite-backed store with two tables
(`participants`, `attendance_records`), four data-access functions
(`add_participant`, `get_all_participants`, `record_attendance`,
`get_attendance_for_session`) and three Flask route handlers
(`setup_page`, `mark_attendance_page`, `view_attendance_page`) driven by a
server-side session holding the current session date.

Tables are modelled as `Option (List row)`: `none` means the table does not
exist (a query against it raises, which the Python code catches and converts
to `None` / `False` / `[]`).  SQL `ORDER BY name` is modelled by
`List.insertionSort` under `strLe`, lexicographic comparison of code points,
which agrees with SQLite's BINARY collation on UTF-8 text.
-/

namespace AttendanceApp

/-- Lexicographic comparison of char lists by code point; `lexLe as bs` is
`true` iff `as` is not after `bs` in dictionary order. -/
def lexLe : List Char → List Char → Bool
  | [], _ => true
  | _ :: _, [] => false
  | a :: as, b :: bs => if a = b then lexLe as bs else decide (a < b)

/-- SQLite BINARY-collation `<=` on strings: byte order of the UTF-8
encodings, which coincides with code-point lexicographic order. -/
def strLe (a b : String) : Bool := lexLe a.data b.data

/-- A row of the `participants` table: `id INTEGER PRIMARY KEY AUTOINCREMENT`,
`name TEXT NOT NULL UNIQUE`, `email TEXT`. -/
structure Participant where
  id : Int
  name : String
  email : Option String
deriving Repr, DecidableEq

/-- A row of the `attendance_records` table: surrogate `id`,
`participant_id INTEGER`, `session_date TEXT NOT NULL`,
`status TEXT NOT NULL CHECK(status IN ('Present', 'Absent'))`. -/
structure AttendanceRecord where
  id : Int
  participant_id : Int
  session_date : String
  status : String
deriving Repr, DecidableEq

/-- A row returned by `get_attendance_for_session`'s join:
`p.name AS participant_name, ar.status, ar.session_date`. -/
structure SessionRow where
  participant_name : String
  status : String
  session_date : String
deriving Repr, DecidableEq

/-- The persistent store.  Each table is `none` while it has not been
created; `init_db` turns an absent table into `some []`. -/
structure DB where
  participants : Option (List Participant)
  attendance_records : Option (List AttendanceRecord)
deriving Repr, DecidableEq

/-- SQLite AUTOINCREMENT row id for the next insert: one more than the
largest id ever used.  Rows are never deleted in this system, so this is
one more than the largest current id (and `1` on an empty table). -/
def nextId (ids : List Int) : Int := ids.foldl max 0 + 1

/-- `database.init_db`: `CREATE TABLE IF NOT EXISTS` for both tables —
an absent table becomes empty, an existing table is left untouched. -/
def init_db (db : DB) : DB :=
  { participants := some (db.participants.getD [])
    attendance_records := some (db.attendance_records.getD []) }

/-- The store `init_db` produces when no table exists yet. -/
def initialDB : DB := init_db { participants := none, attendance_records := none }

/-- `app.add_participant(name, email=None)`: `INSERT INTO participants`;
a duplicate name violates the UNIQUE constraint and the handler returns
`None`; any other failure (e.g. missing table) is also swallowed to `None`;
on success the new row id is returned. -/
def add_participant (name : String) (email : Option String) (db : DB) :
    Option Int × DB :=
  match db.participants with
  | none => (none, db)
  | some ps =>
    if ps.any (fun p => p.name == name) then (none, db)
    else
      let pid := nextId (ps.map (fun p => p.id))
      (some pid, { db with participants := some (ps ++ [⟨pid, name, email⟩]) })

/-- The `ORDER BY name` of `get_all_participants`. -/
def sortParticipants (ps : List Participant) : List Participant :=
  ps.insertionSort (fun a b => strLe a.name b.name = true)

/-- `app.get_all_participants`: `SELECT id, name, email FROM participants
ORDER BY name`; any failure is swallowed to `[]`. -/
def get_all_participants (db : DB) : List Participant :=
  match db.participants with
  | none => []
  | some ps => sortParticipants ps

/-- Does `status` satisfy the table's `CHECK(status IN ('Present', 'Absent'))`
constraint? -/
def validStatus (status : String) : Bool :=
  status == "Present" || status == "Absent"

/-- `app.record_attendance(participant_id, session_date, status)`:
SELECT the existing row for the pair; if found, UPDATE its status, else
INSERT a new row.  A CHECK-constraint violation (or missing table) raises,
nothing is committed, and the handler swallows the error to `False`. -/
def record_attendance (participant_id : Int) (session_date status : String)
    (db : DB) : Bool × DB :=
  match db.attendance_records with
  | none => (false, db)
  | some rs =>
    match rs.find? (fun r =>
        r.participant_id == participant_id && r.session_date == session_date) with
    | some r =>
      if validStatus status then
        let rs2 := rs.map (fun r2 =>
          if r2.id == r.id then { r2 with status := status } else r2)
        (true, { db with attendance_records := some rs2 })
      else (false, db)
    | none =>
      if validStatus status then
        let rid := nextId (rs.map (fun r => r.id))
        let rs2 := rs ++ [⟨rid, participant_id, session_date, status⟩]
        (true, { db with attendance_records := some rs2 })
      else (false, db)

/-- The `ORDER BY p.name` of `get_attendance_for_session`. -/
def sortRows (rows : List SessionRow) : List SessionRow :=
  rows.insertionSort (fun a b => strLe a.participant_name b.participant_name = true)

/-- `app.get_attendance_for_session(session_date)`: inner join of
`attendance_records` with `participants` on `participant_id = id`,
restricted to the given date, ordered by participant name; any failure is
swallowed to `[]`. -/
def get_attendance_for_session (session_date : String) (db : DB) :
    List SessionRow :=
  match db.participants, db.attendance_records with
  | some ps, some rs =>
    sortRows ((rs.filter (fun r => r.session_date == session_date)).flatMap
      (fun ar => (ps.filter (fun p => p.id == ar.participant_id)).map
        (fun p => ⟨p.name, ar.status, ar.session_date⟩)))
  | _, _ => []

/-- Server-side session state (Flask's signed cookie session): the only key
this application uses is `session_date`. -/
structure SessionState where
  session_date : Option String
deriving Repr, DecidableEq

/-- An HTTP response, abstracting the Flask return values: a redirect to a
named endpoint (with query parameters), or one of the three rendered
templates together with the data passed to them. -/
inductive Response where
  | redirect (endpoint : String) (query : List (String × String))
  | setupHtml (participants : List Participant) (sess : SessionState)
  | markAttendanceHtml (participants : List Participant) (session_date : String)
  | viewAttendanceHtml (attendance_records : List SessionRow)
      (session_date : Option String)
deriving Repr, DecidableEq

/-- `request.form.get(k)` / `request.args.get(k)` on a werkzeug MultiDict:
the first value submitted under key `k`, or `None`. -/
def formGet (form : List (String × String)) (k : String) : Option String :=
  List.lookup k form

/-- Python truthiness of an optional string: `None` and `""` are falsy. -/
def truthyOpt : Option String → Bool
  | none => false
  | some s => !(s == "")

/-- Helper for `formItems`: drop pairs whose key was already seen. -/
def formItemsAux : List String → List (String × String) → List (String × String)
  | _, [] => []
  | seen, kv :: rest =>
    if seen.contains kv.1 then formItemsAux seen rest
    else kv :: formItemsAux (kv.1 :: seen) rest

/-- `request.form.items()` on a werkzeug MultiDict: one pair per key (the
first value), in order of first occurrence. -/
def formItems (form : List (String × String)) : List (String × String) :=
  formItemsAux [] form

/-- `s.split('_')` from Python, on the character list of `s`: split at every
occurrence of the separator. -/
def splitChars (sep : Char) (cs : List Char) : List (List Char) :=
  cs.foldr (fun c acc =>
    match acc with
    | [] => [[c]]
    | g :: gs => if c = sep then [] :: g :: gs else (c :: g) :: gs) [[]]

/-- Decimal digit parsing: `some n` iff the characters are a non-empty
run of ASCII digits. -/
def digitsToNat? (cs : List Char) : Option Nat :=
  if cs ≠ [] ∧ cs.all (fun c => c.isDigit) then
    some (cs.foldl (fun n c => 10 * n + (c.toNat - 48)) 0)
  else none

/-- Models Python `int(s)` on the participant-id substrings appearing in
form keys: optional surrounding whitespace, an optional sign, then decimal
digits; anything else raises `ValueError` (modelled as `none`).  (Python's
underscore separators and non-ASCII digits are not modelled; no key built
by the templates uses them.) -/
def pyInt? (cs0 : List Char) : Option Int :=
  let cs := ((cs0.dropWhile (fun c => c.isWhitespace)).reverse.dropWhile
    (fun c => c.isWhitespace)).reverse
  match cs with
  | '-' :: rest => (digitsToNat? rest).map (fun n => -(n : Int))
  | '+' :: rest => (digitsToNat? rest).map (fun n => (n : Int))
  | rest => (digitsToNat? rest).map (fun n => (n : Int))

/-- The POST loop of `mark_attendance_page`: for every submitted form field
whose key starts with `status_`, parse the participant id from
`key.split('_')[1]` and call `record_attendance` with the form's date;
fields with unparsable ids are skipped. -/
def processStatusFields (form : List (String × String)) (session_date : String)
    (db : DB) : DB :=
  (formItems form).foldl (fun db kv =>
    if ("status_".data).isPrefixOf kv.1.data then
      match pyInt? ((splitChars '_' kv.1.data).getD 1 []) with
      | some pid => (record_attendance pid session_date kv.2 db).2
      | none => db
    else db) db

/-- `app.setup_page` (`GET/POST /`): on POST, store a submitted non-empty
`session_date` in the session; dispatch on `action`
(`add_participant` inserts and redirects back, `proceed_to_attendance`
redirects to the mark screen when a date is stored); otherwise render the
setup template with the participant list. -/
def setup_page (method : String) (form : List (String × String))
    (sess : SessionState) (db : DB) : Response × SessionState × DB :=
  if method == "POST" then
    let action := formGet form "action"
    let session_date_form := formGet form "session_date"
    let sess1 := if truthyOpt session_date_form then
      { session_date := session_date_form } else sess
    if action == some "add_participant" then
      let participant_name := formGet form "participant_name"
      let db1 := if truthyOpt participant_name then
        (add_participant (participant_name.getD "") none db).2 else db
      (.redirect "setup_page" [], sess1, db1)
    else if action == some "proceed_to_attendance" then
      if truthyOpt sess1.session_date then
        (.redirect "mark_attendance_page" [], sess1, db)
      else (.redirect "setup_page" [], sess1, db)
    else (.setupHtml (get_all_participants db) sess1, sess1, db)
  else (.setupHtml (get_all_participants db) sess, sess, db)

/-- `app.mark_attendance_page` (`GET/POST /attendance`): entry guard
redirects to setup when the session holds no (truthy) date; POST re-reads
the date from the form, records every submitted status field under it and
redirects to the view page for that date; GET redirects to setup when no
participants exist, else renders the marking form. -/
def mark_attendance_page (method : String) (form : List (String × String))
    (sess : SessionState) (db : DB) : Response × SessionState × DB :=
  if !(truthyOpt sess.session_date) then (.redirect "setup_page" [], sess, db)
  else if method == "POST" then
    let session_date_form := formGet form "session_date"
    if !(truthyOpt session_date_form) then (.redirect "setup_page" [], sess, db)
    else
      let fd := session_date_form.getD ""
      (.redirect "view_attendance_page" [("session_date_view", fd)], sess,
        processStatusFields form fd db)
  else
    let participants := get_all_participants db
    if participants.isEmpty then (.redirect "setup_page" [], sess, db)
    else (.markAttendanceHtml participants (sess.session_date.getD ""), sess, db)

/-- `app.view_attendance_page` (`GET /view`): reads the target date from
the `session_date_view` query parameter only; fetches records when it is
present (and truthy), renders the view template either way. -/
def view_attendance_page (args : List (String × String)) (sess : SessionState)
    (db : DB) : Response × SessionState × DB :=
  let session_date_to_view := formGet args "session_date_view"
  let attendance_records :=
    if truthyOpt session_date_to_view then
      get_attendance_for_session (session_date_to_view.getD "") db
    else []
  (.viewAttendanceHtml attendance_records session_date_to_view, sess, db)

/-- The record table shown by a response (empty for redirects and for the
other templates). -/
def shownRecords : Response → List SessionRow
  | .viewAttendanceHtml recs _ => recs
  | _ => []

/-- A repository operation: the four data-access functions plus schema
initialization.  The two queries do not change the store. -/
inductive Op where
  | add (name : String) (email : Option String)
  | listAll
  | record (participant_id : Int) (session_date status : String)
  | forSession (session_date : String)
  | initOp
deriving Repr, DecidableEq

/-- Effect of one repository operation on the store. -/
def applyOp (db : DB) : Op → DB
  | .add n e => (add_participant n e db).2
  | .listAll => db
  | .record p d s => (record_attendance p d s db).2
  | .forSession _ => db
  | .initOp => init_db db

/-- The store reached by running a sequence of repository operations from
an initialized empty store. -/
def runOps (ops : List Op) : DB := ops.foldl applyOp initialDB

theorem lexLe_total (as bs : List Char) : lexLe as bs = true ∨ lexLe bs as = true := by
  induction as generalizing bs with
  | nil => left; rfl
  | cons a as ih =>
    cases bs with
    | nil => right; rfl
    | cons b bs =>
      by_cases hab : a = b
      · subst hab
        rcases ih bs with h | h
        · left; simpa [lexLe] using h
        · right; simpa [lexLe] using h
      · rcases lt_or_gt_of_ne hab with h | h
        · left; simp [lexLe, hab, h]
        · right; simp [lexLe, Ne.symm hab, h]

theorem lexLe_trans {as bs cs : List Char} (h1 : lexLe as bs = true)
    (h2 : lexLe bs cs = true) : lexLe as cs = true := by
  induction as generalizing bs cs with
  | nil => rfl
  | cons a as ih =>
    cases bs with
    | nil => simp [lexLe] at h1
    | cons b bs =>
      cases cs with
      | nil => simp [lexLe] at h2
      | cons c cs =>
        by_cases hab : a = b <;> by_cases hbc : b = c
        · subst hab; subst hbc
          simp only [lexLe, if_pos rfl] at h1 h2 ⊢
          exact ih h1 h2
        · subst hab
          simp only [lexLe, if_pos rfl] at h1
          simp only [lexLe, if_neg hbc, decide_eq_true_eq] at h2
          simp [lexLe, ne_of_lt h2, h2]
        · subst hbc
          simp only [lexLe, if_neg hab, decide_eq_true_eq] at h1
          simp [lexLe, hab, h1]
        · simp only [lexLe, if_neg hab, decide_eq_true_eq] at h1
          simp only [lexLe, if_neg hbc, decide_eq_true_eq] at h2
          have hac := lt_trans h1 h2
          simp [lexLe, ne_of_lt hac, hac]

instance : IsTotal Participant (fun a b => strLe a.name b.name = true) :=
  ⟨fun a b => lexLe_total a.name.data b.name.data⟩

instance : IsTrans Participant (fun a b => strLe a.name b.name = true) :=
  ⟨fun _ _ _ => lexLe_trans⟩

instance : IsTotal SessionRow
    (fun a b => strLe a.participant_name b.participant_name = true) :=
  ⟨fun a b => lexLe_total a.participant_name.data b.participant_name.data⟩

instance : IsTrans SessionRow
    (fun a b => strLe a.participant_name b.participant_name = true) :=
  ⟨fun _ _ _ => lexLe_trans⟩

end AttendanceApp

namespace AttendanceApp

/-- C7: `init_db` is idempotent: on a store where both tables exist it is
the identity (schema and rows untouched), and running it twice from any
state equals running it once. -/
theorem C7_init_db_idempotent (db : DB) (ps : List Participant)
    (rs : List AttendanceRecord) (hp : db.participants = some ps)
    (hr : db.attendance_records = some rs) :
    init_db db = db ∧ ∀ db2 : DB, init_db (init_db db2) = init_db db2 := by
  constructor
  · cases db
    simp_all [init_db]
  · intro db2
    rfl

/-- Witness for C7 at the initialized empty store. -/
theorem C7_witness : init_db initialDB = initialDB :=
  (C7_init_db_idempotent initialDB [] [] rfl rfl).1

/-- C8: a status rejected by the CHECK constraint makes `record_attendance`
return `false` and leave the store unchanged. -/
theorem C8_invalid_status_rejected (db : DB) (p : Int) (d s : String)
    (h : validStatus s = false) : record_attendance p d s db = (false, db) := by
  unfold record_attendance
  cases hdb : db.attendance_records with
  | none => rfl
  | some rs =>
    cases hf : rs.find? (fun r => r.participant_id == p && r.session_date == d) with
    | none => simp [h, hf]
    | some r => simp [h, hf]

/-- Witness for C8 with the status `"Late"`. -/
theorem C8_witness :
    validStatus "Late" = false ∧
      record_attendance 1 "2024-01-03" "Late" initialDB = (false, initialDB) :=
  ⟨by decide, C8_invalid_status_rejected initialDB 1 "2024-01-03" "Late" (by decide)⟩

/-- C6: the `/view` response is a function of the `session_date_view` query
parameter and the store alone — the session state does not influence it —
and with the parameter absent no records are shown. -/
theorem C6_view_independent_of_session :
    (∀ args (s1 s2 : SessionState) (db : DB),
      (view_attendance_page args s1 db).1 = (view_attendance_page args s2 db).1) ∧
    (∀ args (sess : SessionState) (db : DB),
      formGet args "session_date_view" = none →
      shownRecords (view_attendance_page args sess db).1 = []) := by
  constructor
  · intro args s1 s2 db
    rfl
  · intro args sess db h
    simp [view_attendance_page, h, truthyOpt, shownRecords]

/-- Witness for C6 on a query string without `session_date_view`. -/
theorem C6_witness :
    formGet [("other", "x")] "session_date_view" = none ∧
      shownRecords (view_attendance_page [("other", "x")] ⟨some "2024-01-01"⟩
        initialDB).1 = [] :=
  ⟨by decide, C6_view_independent_of_session.2 [("other", "x")]
    ⟨some "2024-01-01"⟩ initialDB (by decide)⟩

/-- C5: `/attendance` never reaches the marking form in a bad state: with
no session date stored every request redirects to setup, and a GET with a
stored date but no participants also redirects to setup. -/
theorem C5_mark_attendance_guards :
    (∀ (method : String) (form : List (String × String)) (sess : SessionState)
      (db : DB), sess.session_date = none →
      (mark_attendance_page method form sess db).1 = .redirect "setup_page" []) ∧
    (∀ (form : List (String × String)) (d : String) (db : DB),
      get_all_participants db = [] →
      (mark_attendance_page "GET" form ⟨some d⟩ db).1 = .redirect "setup_page" []) := by
  constructor
  · intro method form sess db h
    simp [mark_attendance_page, h, truthyOpt]
  · intro form d db h
    by_cases hd : d = ""
    · simp [mark_attendance_page, hd, truthyOpt]
    · simp [mark_attendance_page, truthyOpt, hd, h]

/-- Witness for C5: an empty session redirects; a stored date with an empty
participant table redirects. -/
theorem C5_witness :
    ((⟨none⟩ : SessionState).session_date = none ∧
      (mark_attendance_page "POST" [] ⟨none⟩ initialDB).1 = .redirect "setup_page" []) ∧
    (get_all_participants initialDB = [] ∧
      (mark_attendance_page "GET" [] ⟨some "2024-01-01"⟩ initialDB).1 =
        .redirect "setup_page" []) :=
  ⟨⟨rfl, C5_mark_attendance_guards.1 "POST" [] ⟨none⟩ initialDB rfl⟩,
   ⟨by decide, C5_mark_attendance_guards.2 [] "2024-01-01" initialDB (by decide)⟩⟩

/-- C10: every POST to `/` carrying a non-empty `session_date` field stores
that value in the session, whatever the submitted `action` is. -/
theorem C10_setup_stores_date (form : List (String × String))
    (sess : SessionState) (db : DB) (v : String)
    (hf : formGet form "session_date" = some v) (hv : v ≠ "") :
    (setup_page "POST" form sess db).2.1 = ⟨some v⟩ := by
  have htr : truthyOpt (some v) = true := by simp [truthyOpt, hv]
  by_cases h1 : formGet form "action" = some "add_participant"
  · simp [setup_page, hf, htr, h1]
  · by_cases h2 : formGet form "action" = some "proceed_to_attendance"
    · simp [setup_page, hf, htr, h1, h2]
    · simp [setup_page, hf, htr, h1, h2]

/-- Witness for C10 with an unknown action. -/
theorem C10_witness :
    formGet [("action", "nonsense"), ("session_date", "2024-05-05")]
        "session_date" = some "2024-05-05" ∧
      (setup_page "POST" [("action", "nonsense"), ("session_date", "2024-05-05")]
        ⟨none⟩ initialDB).2.1 = ⟨some "2024-05-05"⟩ :=
  ⟨by decide, C10_setup_stores_date _ ⟨none⟩ initialDB "2024-05-05" (by decide)
    (by decide)⟩

/-- C9: a POST to `/attendance` with a session date stored and a (different
or equal) date in the form body records every status field under the form's
date, leaves the session unchanged, and redirects to the view page for the
form's date. -/
theorem C9_post_uses_form_date (form : List (String × String))
    (sess : SessionState) (db : DB) (t fd : String)
    (hs : sess.session_date = some t) (ht : t ≠ "")
    (hf : formGet form "session_date" = some fd) (hfd : fd ≠ "") :
    mark_attendance_page "POST" form sess db =
      (.redirect "view_attendance_page" [("session_date_view", fd)], sess,
        processStatusFields form fd db) := by
  simp [mark_attendance_page, hs, hf, truthyOpt, ht, hfd]

/-- Witness for C9: the form date `2024-01-03` wins over the stored date
`2024-01-01`. -/
theorem C9_witness :
    ((⟨some "2024-01-01"⟩ : SessionState).session_date = some "2024-01-01" ∧
      formGet [("session_date", "2024-01-03"), ("status_1", "Present")]
        "session_date" = some "2024-01-03") ∧
      mark_attendance_page "POST"
        [("session_date", "2024-01-03"), ("status_1", "Present")]
        ⟨some "2024-01-01"⟩ initialDB =
      (.redirect "view_attendance_page" [("session_date_view", "2024-01-03")],
        ⟨some "2024-01-01"⟩,
        processStatusFields [("session_date", "2024-01-03"), ("status_1", "Present")]
          "2024-01-03" initialDB) :=
  ⟨⟨rfl, by decide⟩,
   C9_post_uses_form_date _ ⟨some "2024-01-01"⟩ initialDB "2024-01-01" "2024-01-03"
     rfl (by decide) (by decide) (by decide)⟩

end AttendanceApp

namespace AttendanceApp

theorem le_foldl_max (l : List Int) (a : Int) : a ≤ l.foldl max a := by
  induction l generalizing a with
  | nil => exact le_refl a
  | cons b l ih => exact le_trans (le_max_left a b) (ih (max a b))

theorem nextId_pos (ids : List Int) : 0 < nextId ids := by
  have h := le_foldl_max ids 0
  unfold nextId
  omega

/-- C2: adding a fresh name returns a positive id; adding an existing name
returns `none` and leaves the store unchanged. -/
theorem C2_add_participant_spec (db : DB) (ps : List Participant)
    (name : String) (email : Option String) (h : db.participants = some ps) :
    ((∀ q ∈ ps, q.name ≠ name) →
      ∃ i : Int, (add_participant name email db).1 = some i ∧ 0 < i) ∧
    ((∃ q ∈ ps, q.name = name) →
      (add_participant name email db).1 = none ∧
        (add_participant name email db).2 = db) := by
  constructor
  · intro hfresh
    have hany : ps.any (fun p => p.name == name) = false := by
      simp only [List.any_eq_false, beq_iff_eq]
      exact hfresh
    exact ⟨nextId (ps.map (fun p => p.id)), by simp [add_participant, h, hany],
      nextId_pos _⟩
  · rintro ⟨q, hq, hqname⟩
    have hany : ps.any (fun p => p.name == name) = true := by
      simp only [List.any_eq_true, beq_iff_eq]
      exact ⟨q, hq, hqname⟩
    constructor <;> simp [add_participant, h, hany]

/-- Witness for C2: first `add("Alice")` yields a positive id; repeating it
yields `none` with the store unchanged. -/
theorem C2_witness :
    (∃ i : Int, (add_participant "Alice" none initialDB).1 = some i ∧ 0 < i) ∧
    ((add_participant "Alice" none
        (add_participant "Alice" none initialDB).2).1 = none ∧
      (add_participant "Alice" none
        (add_participant "Alice" none initialDB).2).2 =
        (add_participant "Alice" none initialDB).2) :=
  ⟨(C2_add_participant_spec initialDB [] "Alice" none rfl).1 (by simp),
   (C2_add_participant_spec (add_participant "Alice" none initialDB).2
      [⟨1, "Alice", none⟩] "Alice" none (by decide)).2 ⟨⟨1, "Alice", none⟩, by decide, rfl⟩⟩

/-- Running `add_participant` once for each of the given names (no emails),
as the setup screen does. -/
def addAll (names : List String) (db : DB) : DB :=
  names.foldl (fun db2 n => (add_participant n none db2).2) db

theorem addAll_table : ∀ (names : List String) (db : DB) (ps : List Participant),
    db.participants = some ps → names.Nodup →
    (∀ n ∈ names, ∀ q ∈ ps, q.name ≠ n) →
    ∃ qs : List Participant, (addAll names db).participants = some (ps ++ qs) ∧
      qs.map (fun p => p.name) = names := by
  intro names
  induction names with
  | nil =>
    intro db ps h _ _
    exact ⟨[], by simpa [addAll] using h, rfl⟩
  | cons n rest ih =>
    intro db ps h hnd hfresh
    have hany : ps.any (fun p => p.name == n) = false := by
      simp only [List.any_eq_false, beq_iff_eq]
      exact fun q hq => hfresh n (List.mem_cons_self n rest) q hq
    have hstep : addAll (n :: rest) db = addAll rest (add_participant n none db).2 := rfl
    have h1 : (add_participant n none db).2.participants =
        some (ps ++ [⟨nextId (ps.map (fun p => p.id)), n, none⟩]) := by
      simp [add_participant, h, hany]
    have hnd2 := (List.nodup_cons.mp hnd).2
    have hn_rest := (List.nodup_cons.mp hnd).1
    have hfresh2 : ∀ m ∈ rest,
        ∀ q ∈ ps ++ [(⟨nextId (ps.map (fun p => p.id)), n, none⟩ : Participant)],
        q.name ≠ m := by
      intro m hm q hq
      rcases List.mem_append.mp hq with hq | hq
      · exact hfresh m (List.mem_cons_of_mem n hm) q hq
      · have : q = ⟨nextId (ps.map (fun p => p.id)), n, none⟩ := by simpa using hq
        subst this
        intro he
        simp only [] at he
        exact hn_rest (by rwa [← he] at hm)
    obtain ⟨qs, hq1, hq2⟩ := ih (add_participant n none db).2 _ h1 hnd2 hfresh2
    refine ⟨⟨nextId (ps.map (fun p => p.id)), n, none⟩ :: qs, ?_, by simp [hq2]⟩
    rw [hstep, hq1]
    simp

/-- C4: on the initialized empty store `get_all_participants` is empty, and
after adding any list of pairwise distinct names it returns exactly that
many rows — the table's rows with their ids, names and emails — sorted
lexicographically by name. -/
theorem C4_get_all_participants (names : List String) (hnd : names.Nodup) :
    get_all_participants initialDB = [] ∧
    ∃ ps : List Participant,
      (addAll names initialDB).participants = some ps ∧
      ps.map (fun p => p.name) = names ∧
      (get_all_participants (addAll names initialDB)).Perm ps ∧
      (get_all_participants (addAll names initialDB)).length = names.length ∧
      List.Sorted (fun a b => strLe a.name b.name = true)
        (get_all_participants (addAll names initialDB)) := by
  refine ⟨rfl, ?_⟩
  obtain ⟨qs, h1, h2⟩ := addAll_table names initialDB [] rfl hnd (by simp)
  simp only [List.nil_append] at h1
  have hget : get_all_participants (addAll names initialDB) = sortParticipants qs := by
    simp [get_all_participants, h1]
  have hperm : (sortParticipants qs).Perm qs := List.perm_insertionSort _ qs
  refine ⟨qs, h1, h2, ?_, ?_, ?_⟩
  · rw [hget]; exact hperm
  · rw [hget, hperm.length_eq, ← h2, List.length_map]
  · rw [hget]; exact List.sorted_insertionSort _ qs

/-- Witness for C4 with two names submitted in reverse order. -/
theorem C4_witness :
    (["Bob", "Alice"] : List String).Nodup ∧
      (get_all_participants initialDB = [] ∧
      ∃ ps : List Participant,
        (addAll ["Bob", "Alice"] initialDB).participants = some ps ∧
        ps.map (fun p => p.name) = ["Bob", "Alice"] ∧
        (get_all_participants (addAll ["Bob", "Alice"] initialDB)).Perm ps ∧
        (get_all_participants (addAll ["Bob", "Alice"] initialDB)).length =
          (["Bob", "Alice"] : List String).length ∧
        List.Sorted (fun a b => strLe a.name b.name = true)
          (get_all_participants (addAll ["Bob", "Alice"] initialDB))) :=
  ⟨by decide, C4_get_all_participants ["Bob", "Alice"] (by decide)⟩

end AttendanceApp

namespace AttendanceApp

/-- The spec's description of `for_session(d)`: the attendance records whose
`session_date` equals `d` and whose `participant_id` matches an existing
participant, each paired with that participant's name.  Stated from the
spec's words, for comparison with `get_attendance_for_session`. -/
def for_session_spec (session_date : String) (ps : List Participant)
    (rs : List AttendanceRecord) : List SessionRow :=
  (rs.filter (fun r => r.session_date == session_date)).filterMap
    (fun ar => (ps.find? (fun q => q.id == ar.participant_id)).map
      (fun q => ⟨q.name, ar.status, ar.session_date⟩))

theorem filter_id_eq_find (i : Int) :
    ∀ ps : List Participant, (ps.map (fun p => p.id)).Nodup →
    ps.filter (fun q => q.id == i) = (ps.find? (fun q => q.id == i)).toList := by
  intro ps
  induction ps with
  | nil => intro _; rfl
  | cons q ps ih =>
    intro hnd
    rw [List.map_cons, List.nodup_cons] at hnd
    by_cases hq : q.id = i
    · have hfil : ps.filter (fun r => r.id == i) = [] := by
        rw [List.filter_eq_nil_iff]
        intro r hr
        simp only [beq_iff_eq]
        intro he
        exact hnd.1 (by rw [hq, ← he]; exact List.mem_map_of_mem (fun p => p.id) hr)
      simp [List.filter_cons, List.find?_cons, hq, hfil]
    · simp [List.filter_cons, List.find?_cons, hq, ih hnd.2]

theorem flatMap_toList_eq_filterMap {α β : Type} (l : List α) (h : α → Option β) :
    (l.flatMap (fun a => (h a).toList)) = l.filterMap h := by
  induction l with
  | nil => rfl
  | cons a l ih => cases ha : h a <;> simp [List.flatMap_cons, List.filterMap_cons, ha, ih]

/-- C3: for any store whose participant ids are distinct,
`get_attendance_for_session d` returns exactly the date-`d` records joined
to an existing participant's name (as a permutation of the spec's join),
sorted by participant name, and is empty when no record has date `d`. -/
theorem C3_for_session_spec (db : DB) (ps : List Participant)
    (rs : List AttendanceRecord) (d : String)
    (hp : db.participants = some ps) (hr : db.attendance_records = some rs)
    (hid : (ps.map (fun p => p.id)).Nodup) :
    (get_attendance_for_session d db).Perm (for_session_spec d ps rs) ∧
    List.Sorted (fun a b => strLe a.participant_name b.participant_name = true)
      (get_attendance_for_session d db) ∧
    ((∀ r ∈ rs, r.session_date ≠ d) → get_attendance_for_session d db = []) := by
  have hget : get_attendance_for_session d db =
      sortRows ((rs.filter (fun r => r.session_date == d)).flatMap
        (fun ar => (ps.filter (fun p => p.id == ar.participant_id)).map
          (fun p => ⟨p.name, ar.status, ar.session_date⟩))) := by
    unfold get_attendance_for_session
    rw [hp, hr]
  refine ⟨?_, ?_, ?_⟩
  · rw [hget]
    have hX : (rs.filter (fun r => r.session_date == d)).flatMap
        (fun ar => (ps.filter (fun p => p.id == ar.participant_id)).map
          (fun p => (⟨p.name, ar.status, ar.session_date⟩ : SessionRow))) =
        for_session_spec d ps rs := by
      unfold for_session_spec
      have hfun : (fun ar : AttendanceRecord =>
          (ps.filter (fun p => p.id == ar.participant_id)).map
            (fun p => (⟨p.name, ar.status, ar.session_date⟩ : SessionRow))) =
          fun ar => ((ps.find? (fun q => q.id == ar.participant_id)).map
            (fun q => (⟨q.name, ar.status, ar.session_date⟩ : SessionRow))).toList := by
        funext ar
        rw [filter_id_eq_find ar.participant_id ps hid]
        cases ps.find? (fun q => q.id == ar.participant_id) <;> rfl
      rw [hfun, flatMap_toList_eq_filterMap]
    rw [hX]
    exact List.perm_insertionSort _ _
  · rw [hget]
    exact List.sorted_insertionSort _ _
  · intro hno
    have hfil : rs.filter (fun r => r.session_date == d) = [] := by
      rw [List.filter_eq_nil_iff]
      intro r hr2
      simpa using hno r hr2
    rw [hget, hfil]
    rfl

/-- Witness for C3 on a two-participant store with records on two dates
(one record pointing at a deleted-or-foreign participant id is dropped). -/
theorem C3_witness :
    (let db : DB := ⟨some [⟨1, "Bob", none⟩, ⟨2, "Alice", none⟩],
      some [⟨1, 1, "2024-01-03", "Present"⟩, ⟨2, 2, "2024-01-03", "Absent"⟩,
        ⟨3, 1, "2024-01-04", "Absent"⟩, ⟨4, 7, "2024-01-03", "Present"⟩]⟩
    db.participants = some [⟨1, "Bob", none⟩, ⟨2, "Alice", none⟩] ∧
    ((([⟨1, "Bob", none⟩, ⟨2, "Alice", none⟩] : List Participant).map
        (fun p => p.id)).Nodup ∧
      (get_attendance_for_session "2024-01-03" db).Perm
        (for_session_spec "2024-01-03" [⟨1, "Bob", none⟩, ⟨2, "Alice", none⟩]
          [⟨1, 1, "2024-01-03", "Present"⟩, ⟨2, 2, "2024-01-03", "Absent"⟩,
            ⟨3, 1, "2024-01-04", "Absent"⟩, ⟨4, 7, "2024-01-03", "Present"⟩]))) :=
  ⟨rfl, by decide,
    (C3_for_session_spec _ _ _ "2024-01-03" rfl rfl (by decide)).1⟩

end AttendanceApp

namespace AttendanceApp

/-- The rows of the attendance table (empty while the table is absent). -/
def attTable (db : DB) : List AttendanceRecord := db.attendance_records.getD []

/-- The invariant of claim C1: no two rows of the attendance table share a
(`participant_id`, `session_date`) pair. -/
def attUnique (rs : List AttendanceRecord) : Prop :=
  rs.Pairwise (fun a b =>
    ¬(a.participant_id = b.participant_id ∧ a.session_date = b.session_date))

/-- The attendance rows stored for one (participant, date) pair. -/
def recordsFor (p : Int) (d : String) (db : DB) : List AttendanceRecord :=
  (attTable db).filter (fun r => r.participant_id == p && r.session_date == d)

theorem add_participant_att (n : String) (e : Option String) (db : DB) :
    (add_participant n e db).2.attendance_records = db.attendance_records := by
  unfold add_participant
  cases db.participants with
  | none => rfl
  | some ps => by_cases h : ps.any (fun p => p.name == n) = true <;> simp [h]

theorem record_att_isSome (p : Int) (d s : String) (db : DB)
    (h : db.attendance_records.isSome) :
    ((record_attendance p d s db).2.attendance_records).isSome := by
  cases hdb : db.attendance_records with
  | none => rw [hdb] at h; cases h
  | some rs =>
    have hdb2 : db = ⟨db.participants, some rs⟩ := by rw [← hdb]
    rw [hdb2]
    cases hf : rs.find? (fun r => r.participant_id == p && r.session_date == d) with
    | some r => by_cases hv : validStatus s = true <;> simp [record_attendance, hf, hv]
    | none => by_cases hv : validStatus s = true <;> simp [record_attendance, hf, hv]

theorem filter_eq_single_of_pairwise {α : Type} (q : α → Bool) :
    ∀ l : List α, l.Pairwise (fun a b => ¬(q a = true ∧ q b = true)) →
    ∀ r, r ∈ l → q r = true → l.filter q = [r]
  | [], _, r, hr, _ => absurd hr (List.not_mem_nil r)
  | a :: l, hpw, r, hr, hqr => by
    rcases List.pairwise_cons.mp hpw with ⟨ha, hl⟩
    rcases List.mem_cons.mp hr with rfl | hr2
    · have hfil : l.filter q = [] := by
        rw [List.filter_eq_nil_iff]
        intro x hx hqx
        exact ha x hx ⟨hqr, hqx⟩
      simp [List.filter_cons, hqr, hfil]
    · have hqa : q a = false := by
        cases hqa : q a with
        | false => rfl
        | true => exact absurd ⟨hqa, hqr⟩ (ha r hr2)
      simp [List.filter_cons, hqa,
        filter_eq_single_of_pairwise q l hl r hr2 hqr]

theorem attUnique_record (p : Int) (d s : String) (db : DB)
    (h : attUnique (attTable db)) :
    attUnique (attTable (record_attendance p d s db).2) := by
  cases hdb : db.attendance_records with
  | none =>
    have hdb2 : db = ⟨db.participants, none⟩ := by rw [← hdb]
    rw [hdb2] at h ⊢
    exact h
  | some rs =>
    have hdb2 : db = ⟨db.participants, some rs⟩ := by rw [← hdb]
    rw [hdb2] at h ⊢
    have hrs : attTable ⟨db.participants, some rs⟩ = rs := rfl
    rw [hrs] at h
    cases hf : rs.find? (fun r => r.participant_id == p && r.session_date == d) with
    | some r =>
      by_cases hv : validStatus s = true
      · have hred : attTable (record_attendance p d s ⟨db.participants, some rs⟩).2 =
            rs.map (fun r2 =>
              if r2.id == r.id then { r2 with status := s } else r2) := by
          simp [record_attendance, hf, hv, attTable]
        rw [hred]
        unfold attUnique
        rw [List.pairwise_map]
        refine h.imp ?_
        intro a b hab hcon
        apply hab
        constructor
        · have h1 : (if a.id == r.id then { a with status := s } else a).participant_id
              = a.participant_id := by split <;> rfl
          have h2 : (if b.id == r.id then { b with status := s } else b).participant_id
              = b.participant_id := by split <;> rfl
          rw [← h1, ← h2]; exact hcon.1
        · have h1 : (if a.id == r.id then { a with status := s } else a).session_date
              = a.session_date := by split <;> rfl
          have h2 : (if b.id == r.id then { b with status := s } else b).session_date
              = b.session_date := by split <;> rfl
          rw [← h1, ← h2]; exact hcon.2
      · have hred : attTable (record_attendance p d s ⟨db.participants, some rs⟩).2 =
            rs := by
          simp [record_attendance, hf, hv, attTable]
        rw [hred]
        exact h
    | none =>
      by_cases hv : validStatus s = true
      · have hred : attTable (record_attendance p d s ⟨db.participants, some rs⟩).2 =
            rs ++ [⟨nextId (rs.map (fun r => r.id)), p, d, s⟩] := by
          simp [record_attendance, hf, hv, attTable]
        rw [hred]
        unfold attUnique
        rw [List.pairwise_append]
        refine ⟨h, List.pairwise_singleton _ _, ?_⟩
        intro a ha b hb
        have hb2 : b = ⟨nextId (rs.map (fun r => r.id)), p, d, s⟩ := by simpa using hb
        subst hb2
        have hna := List.find?_eq_none.mp hf a ha
        simp only [Bool.and_eq_true, beq_iff_eq] at hna
        intro hcon
        exact hna ⟨hcon.1, hcon.2⟩
      · have hred : attTable (record_attendance p d s ⟨db.participants, some rs⟩).2 =
            rs := by
          simp [record_attendance, hf, hv, attTable]
        rw [hred]
        exact h

theorem applyOp_attUnique (db : DB) (op : Op) (h : attUnique (attTable db)) :
    attUnique (attTable (applyOp db op)) := by
  cases op with
  | add n e =>
    have heq : attTable (applyOp db (.add n e)) = attTable db := by
      unfold attTable applyOp
      rw [add_participant_att]
    rwa [heq]
  | listAll => exact h
  | record p d s => exact attUnique_record p d s db h
  | forSession _ => exact h
  | initOp => exact h

theorem applyOp_att_isSome (db : DB) (op : Op)
    (h : db.attendance_records.isSome) :
    ((applyOp db op).attendance_records).isSome := by
  cases op with
  | add n e =>
    unfold applyOp
    rw [add_participant_att]
    exact h
  | listAll => exact h
  | record p d s => exact record_att_isSome p d s db h
  | forSession _ => exact h
  | initOp => rfl

theorem foldl_attUnique : ∀ (ops : List Op) (db : DB),
    attUnique (attTable db) → (db.attendance_records).isSome →
    attUnique (attTable (ops.foldl applyOp db)) ∧
      ((ops.foldl applyOp db).attendance_records).isSome
  | [], _, h, hs => ⟨h, hs⟩
  | op :: ops, db, h, hs =>
    foldl_attUnique ops (applyOp db op) (applyOp_attUnique db op h)
      (applyOp_att_isSome db op hs)

theorem runOps_attUnique (ops : List Op) : attUnique (attTable (runOps ops)) :=
  (foldl_attUnique ops initialDB List.Pairwise.nil rfl).1

theorem runOps_att_some (ops : List Op) :
    ∃ rs, (runOps ops).attendance_records = some rs :=
  Option.isSome_iff_exists.mp
    (foldl_attUnique ops initialDB List.Pairwise.nil rfl).2

theorem record_keeps_single (db : DB) (rs : List AttendanceRecord) (p : Int)
    (d s : String) (hdb : db.attendance_records = some rs) (hu : attUnique rs)
    (hs : validStatus s = true) :
    (recordsFor p d (record_attendance p d s db).2).map (fun r => r.status) = [s] := by
  have hdb2 : db = ⟨db.participants, some rs⟩ := by rw [← hdb]
  rw [hdb2]
  cases hf : rs.find? (fun r => r.participant_id == p && r.session_date == d) with
  | none =>
    have hred : recordsFor p d (record_attendance p d s ⟨db.participants, some rs⟩).2 =
        (rs ++ [(⟨nextId (rs.map (fun r => r.id)), p, d, s⟩ : AttendanceRecord)]).filter
          (fun r => r.participant_id == p && r.session_date == d) := by
      simp [record_attendance, hf, hs, recordsFor, attTable]
    rw [hred, List.filter_append]
    have h1 : rs.filter (fun r => r.participant_id == p && r.session_date == d) = [] := by
      rw [List.filter_eq_nil_iff]
      exact List.find?_eq_none.mp hf
    rw [h1]
    simp
  | some r =>
    have hr_mem := List.mem_of_find?_eq_some hf
    have hqr := List.find?_some hf
    have hpw : rs.Pairwise (fun a b =>
        ¬((a.participant_id == p && a.session_date == d) = true ∧
          (b.participant_id == p && b.session_date == d) = true)) := by
      refine hu.imp ?_
      intro a b hab hcon
      simp only [Bool.and_eq_true, beq_iff_eq] at hcon
      exact hab ⟨hcon.1.1.trans hcon.2.1.symm, hcon.1.2.trans hcon.2.2.symm⟩
    have hfil := filter_eq_single_of_pairwise _ rs hpw r hr_mem hqr
    have hred : recordsFor p d (record_attendance p d s ⟨db.participants, some rs⟩).2 =
        (rs.map (fun r2 =>
          if r2.id == r.id then { r2 with status := s } else r2)).filter
          (fun r => r.participant_id == p && r.session_date == d) := by
      simp [record_attendance, hf, hs, recordsFor, attTable]
    rw [hred, List.filter_map _ _]
    have hcong : rs.filter ((fun r2 : AttendanceRecord =>
          r2.participant_id == p && r2.session_date == d) ∘
        (fun r2 => if r2.id == r.id then { r2 with status := s } else r2)) =
        rs.filter (fun r2 => r2.participant_id == p && r2.session_date == d) := by
      apply List.filter_congr
      intro x _
      simp only [Function.comp]
      split <;> rfl
    rw [hcong, hfil]
    simp

/-- C1: every store reachable by a sequence of repository operations from
the initialized empty store holds at most one attendance row per
(`participant_id`, `session_date`) pair, and from any such store a
`record(p, d, s)` followed by `record(p, d, s2)` leaves exactly one row for
(p, d), whose status is `s2`. -/
theorem C1_upsert_last_write_wins (ops : List Op) (p : Int) (d s s2 : String)
    (hs : validStatus s = true) (hs2 : validStatus s2 = true) :
    attUnique (attTable (runOps ops)) ∧
    (recordsFor p d
        (record_attendance p d s2
          (record_attendance p d s (runOps ops)).2).2).map (fun r => r.status) =
      [s2] := by
  refine ⟨runOps_attUnique ops, ?_⟩
  obtain ⟨rs, hrs⟩ := runOps_att_some ops
  have hu0 := runOps_attUnique ops
  have hsome1 : ((record_attendance p d s (runOps ops)).2.attendance_records).isSome :=
    record_att_isSome p d s _ (by rw [hrs]; rfl)
  obtain ⟨rs1, hrs1⟩ := Option.isSome_iff_exists.mp hsome1
  have hu1 : attUnique rs1 := by
    have h2 := attUnique_record p d s (runOps ops) hu0
    unfold attTable at h2
    rwa [hrs1, Option.getD_some] at h2
  exact record_keeps_single _ rs1 p d s2 hrs1 hu1 hs2

/-- Witness for C1: after adding Alice, recording Present then Absent for
her on one date leaves a single Absent row. -/
theorem C1_witness :
    (validStatus "Present" = true ∧ validStatus "Absent" = true) ∧
      (attUnique (attTable (runOps [.add "Alice" none])) ∧
      (recordsFor 1 "2024-01-03"
          (record_attendance 1 "2024-01-03" "Absent"
            (record_attendance 1 "2024-01-03" "Present"
              (runOps [.add "Alice" none])).2).2).map (fun r => r.status) =
        ["Absent"]) :=
  ⟨⟨by decide, by decide⟩,
   C1_upsert_last_write_wins [.add "Alice" none] 1 "2024-01-03" "Present" "Absent"
     (by decide) (by decide)⟩

end AttendanceApp
